import Mathlib

/-!
Verification of the academic-bot-api aggregation core (main.py).

The Python program is shallowly embedded: every source adapter is modelled as
a pure function of an explicit "upstream behaviour" value that records what
the network / parsing layer delivered (items yielded, exceptions raised,
elements or JSON keys present or absent), and the aggregator and cache gate
are modelled as state-passing functions.  Python exceptions are modelled with
Except / Option, Python character slicing s[:n] with a take on the character
list, and Python None leaking into a field with an Option.  JSON
serialization into the cache and deserialization back (json.dumps /
json.loads on the envelope dictionary) is modelled as the identity on
envelopes, which is what the round trip computes on this data model.
-/

set_option linter.unusedVariables false

/-- Python slicing s[:n] on a string: the first n characters (code points). -/
def pySlice (n : Nat) (s : String) : String := String.mk (s.data.take n)

/-- The citations field is heterogeneous in the Python dicts: either an
integer count or the literal string N/A. -/
inductive Citations where
  | count : Nat → Citations
  | na : Citations
deriving DecidableEq, Repr

/-- One normalized literature record, as built by the five adapters
(main.py lines 60-69, 134-143, 191-200, 229-238, 279-288).  Fields that a
code path can set to Python None are Option String, with none modelling
None; all adapters set the others to genuine strings. -/
structure NormalizedRecord where
  source : String
  title : Option String
  authors : String
  year : Option String
  abstract : String
  url : Option String
  citations : Citations
  venue : String
deriving DecidableEq, Repr

/- ==================== Google Scholar adapter (lines 47-76) ==================== -/

/-- One publication dict yielded by scholarly.search_pubs.  `author` is
either a list (joined) or any other value (str() applied, modelled by the
resulting string); `pubYear` and `numCitations` model the values the code
reads; a missing key is none. -/
structure ScholarPub where
  title : Option String
  author : Option (List String ⊕ String)
  pubYear : Option String
  abstract : Option String
  pubUrl : Option String
  eprintUrl : Option String
  numCitations : Option Nat
  venueName : Option String
deriving DecidableEq, Repr

/-- One step of the scholarly iterator: it either yields a publication or
raises (transport error, scraping error, ...). -/
inductive ScholarEvent where
  | item : ScholarPub → ScholarEvent
  | broken : ScholarEvent
deriving DecidableEq, Repr

/-- The publication carried by a ScholarEvent, if any. -/
def scholarEventPub : ScholarEvent → Option ScholarPub
  | ScholarEvent.item p => some p
  | ScholarEvent.broken => none

/-- The record appended for one scholarly publication (lines 60-69). -/
def scholarRecord (p : ScholarPub) : NormalizedRecord :=
  { source := "Google Scholar"
    title := some (p.title.getD "N/A")
    authors :=
      match p.author with
      | some (Sum.inl l) => String.intercalate ", " l
      | some (Sum.inr s) => s
      | none => "N/A"
    year := some (p.pubYear.getD "N/A")
    abstract := pySlice 500 (p.abstract.getD "N/A")
    url := some (p.pubUrl.getD (p.eprintUrl.getD "N/A"))
    citations := Citations.count (p.numCitations.getD 0)
    venue := p.venueName.getD "N/A" }

/-- The enumeration loop of search_google_scholar (lines 55-69): pulls
events, breaks after num_results items have been appended (the pull at
index num_results is discarded), and on a raised event the except block
(line 72) falls through to returning the records accumulated so far. -/
def scholarGo (num_results : Nat) : List ScholarEvent → Nat → List NormalizedRecord → List NormalizedRecord
  | [], _, acc => acc.reverse
  | ScholarEvent.broken :: _, _, acc => acc.reverse
  | ScholarEvent.item p :: rest, i, acc =>
    if num_results ≤ i then acc.reverse
    else scholarGo num_results rest (i + 1) (scholarRecord p :: acc)

/-- search_google_scholar (lines 47-76).  The query string only parametrizes
the upstream request; the upstream behaviour (the event stream) is the
model's input.  An exception raised before the first yield is the stream
[broken]. -/
def search_google_scholar (events : List ScholarEvent) (num_results : Nat := 10) : List NormalizedRecord :=
  scholarGo num_results events 0 []

/- ==================== PubMed adapter (lines 79-152) ==================== -/

/-- An Author element of the efetch XML: each child element is either absent
(outer none) or present with an optional text (inner Option; none is a
childless element whose .text is Python None). -/
structure PubmedAuthor where
  lastName : Option (Option String)
  foreName : Option (Option String)
deriving DecidableEq, Repr

/-- One PubmedArticle element of the efetch XML; every field is
element-present? × element-text? as in PubmedAuthor. -/
structure PubmedArticle where
  titleElem : Option (Option String)
  authors : List PubmedAuthor
  abstractElem : Option (Option String)
  yearElem : Option (Option String)
  pmidElem : Option (Option String)
deriving DecidableEq, Repr

/-- Upstream behaviour of the two PubMed HTTP calls: the esearch call can
raise (or return unparseable JSON), and, when it returns ids, the efetch
call can raise or return an unparseable body (fetch = none). -/
inductive PubmedUpstream where
  | esearchError : PubmedUpstream
  | results : List String → Option (List PubmedArticle) → PubmedUpstream
deriving DecidableEq, Repr

/-- Author names collected by lines 118-123: only authors with both a
LastName and a ForeName element contribute; an element text of Python None
renders as the string None inside the f-string. -/
def pubmedAuthorNames (l : List PubmedAuthor) : List String :=
  l.filterMap fun a =>
    match a.lastName, a.foreName with
    | some ln, some fn => some (fn.getD "None" ++ " " ++ ln.getD "None")
    | _, _ => none

/-- Per-article processing (lines 113-146).  The inner try/except skips an
article whose processing raises; under this model the only raising path is
an AbstractText element whose text is Python None (None[:500] is a
TypeError, line 139). -/
def pubmedArticleRecord (a : PubmedArticle) : Option NormalizedRecord :=
  match a.abstractElem with
  | some none => none
  | _ =>
    some
      { source := "PubMed"
        title := match a.titleElem with | none => some "N/A" | some t => t
        authors := String.intercalate ", " (pubmedAuthorNames a.authors)
        year := match a.yearElem with | none => some "N/A" | some t => t
        abstract :=
          match a.abstractElem with
          | none => "N/A"
          | some none => "N/A"
          | some (some s) => if s = "N/A" then "N/A" else pySlice 500 s
        url := some ("https://pubmed.ncbi.nlm.nih.gov/" ++
          (match a.pmidElem with
           | none => "N/A"
           | some none => "None"
           | some (some s) => s) ++ "/")
        citations := Citations.na
        venue := "PubMed" }

/-- search_pubmed (lines 79-152): empty id list returns early (line 98); an
esearch or efetch failure is caught by the outer except with nothing
accumulated; otherwise per-article processing with skip-on-error.
num_results only feeds the upstream retmax parameter (line 90). -/
def search_pubmed (u : PubmedUpstream) (num_results : Nat := 10) : List NormalizedRecord :=
  match u with
  | PubmedUpstream.esearchError => []
  | PubmedUpstream.results ids fetch =>
    if ids.isEmpty then []
    else
      match fetch with
      | none => []
      | some articles => articles.filterMap pubmedArticleRecord

/- ==================== arXiv adapter (lines 155-206) ==================== -/

/-- An atom:author element of the arXiv feed; `name` is the atom:name child:
absent (find returns None, so .text raises), or present with optional text. -/
structure ArxivAuthorElem where
  name : Option (Option String)
deriving DecidableEq, Repr

/-- One atom:entry element of the arXiv feed; each field is
element-present? × element-text?. -/
structure ArxivEntry where
  title : Option (Option String)
  authors : List ArxivAuthorElem
  summary : Option (Option String)
  published : Option (Option String)
  idLink : Option (Option String)
deriving DecidableEq, Repr

/-- Upstream behaviour of the arXiv HTTP call: the request or the XML parse
can raise, otherwise the feed holds a list of entries. -/
inductive ArxivUpstream where
  | requestError : ArxivUpstream
  | entries : List ArxivEntry → ArxivUpstream
deriving DecidableEq, Repr

/-- Title extraction (lines 174-175): a missing element gives N/A, an
element whose text is Python None raises (None.strip()). -/
def arxivText : Option (Option String) → Except Unit String
  | none => Except.ok "N/A"
  | some none => Except.error ()
  | some (some t) => Except.ok t.trim

/-- The author-name list comprehension (lines 177-180): a missing atom:name
child raises (None.text); an empty text is carried as Python None. -/
def arxivNames : List ArxivAuthorElem → Except Unit (List (Option String))
  | [] => Except.ok []
  | a :: rest =>
    match a.name with
    | none => Except.error ()
    | some t => (arxivNames rest).map (fun l => t :: l)

/-- Python str.join: raises a TypeError when the list holds a non-string
(here Python None), otherwise concatenates with the separator. -/
def pyJoin (sep : String) (l : List (Option String)) : Except Unit String :=
  if l.all Option.isSome then
    Except.ok (String.intercalate sep (l.map fun o => o.getD ""))
  else Except.error ()

/-- Published-date extraction (lines 185-186): text[:4]; a missing element
gives N/A, a text of Python None raises (None[:4]). -/
def arxivPublished : Option (Option String) → Except Unit String
  | none => Except.ok "N/A"
  | some none => Except.error ()
  | some (some p) => Except.ok (pySlice 4 p)

/-- The abstract expression of the arXiv record (line 196). -/
def arxivAbstract (summary : String) : String :=
  if summary = "N/A" then "N/A" else pySlice 500 summary

/-- Per-entry processing of the arXiv loop (lines 173-200), in source
order: title, authors, summary, published, link, then the record whose
construction joins the author list. -/
def arxivEntryRecord (e : ArxivEntry) : Except Unit NormalizedRecord :=
  match arxivText e.title with
  | Except.error _ => Except.error ()
  | Except.ok title =>
  match arxivNames e.authors with
  | Except.error _ => Except.error ()
  | Except.ok authors =>
  match arxivText e.summary with
  | Except.error _ => Except.error ()
  | Except.ok summary =>
  match arxivPublished e.published with
  | Except.error _ => Except.error ()
  | Except.ok published =>
  match pyJoin ", " authors with
  | Except.error _ => Except.error ()
  | Except.ok authorsStr =>
    Except.ok
      { source := "arXiv"
        title := some title
        authors := authorsStr
        year := some published
        abstract := arxivAbstract summary
        url := match e.idLink with | none => some "N/A" | some t => t
        citations := Citations.na
        venue := "arXiv Preprint" }

/-- The entry loop (lines 173-200): there is no inner try, so the first
entry whose processing raises aborts the loop; the outer except (line 202)
then falls through to returning the records accumulated so far. -/
def arxivGo : List ArxivEntry → List NormalizedRecord → List NormalizedRecord
  | [], acc => acc.reverse
  | e :: rest, acc =>
    match arxivEntryRecord e with
    | Except.ok r => arxivGo rest (r :: acc)
    | Except.error _ => acc.reverse

/-- search_arxiv (lines 155-206).  num_results only feeds the upstream
max_results query parameter (line 165); the loop applies no local cap. -/
def search_arxiv (u : ArxivUpstream) (num_results : Nat := 10) : List NormalizedRecord :=
  match u with
  | ArxivUpstream.requestError => []
  | ArxivUpstream.entries es => arxivGo es []

/- ==================== Semantic Scholar adapter (lines 209-244) ==================== -/

/-- One paper object of the Semantic Scholar JSON.  `abstract` is
key-present? × (null or string); the other fields are modelled at the type
the adapter reads, none for a missing key; `year` holds the str() of the
JSON value.  `authors` holds each author object's name (none = key
missing). -/
structure SemanticPaper where
  title : Option String
  authors : List (Option String)
  year : Option String
  abstract : Option (Option String)
  url : Option String
  citationCount : Option Nat
  venueName : Option String
deriving DecidableEq, Repr

/-- Upstream behaviour of the Semantic Scholar HTTP call: the request or
response.json() can raise; a response without a data key is papers []. -/
inductive SemanticUpstream where
  | requestError : SemanticUpstream
  | papers : List SemanticPaper → SemanticUpstream
deriving DecidableEq, Repr

/-- The abstract expression (line 234): (paper.get('abstract','N/A') or
'N/A')[:500].  A missing key defaults to N/A; a JSON null and the empty
string are falsy, so `or` replaces them by N/A. -/
def semanticAbstract (a : Option (Option String)) : String :=
  let v :=
    match a with
    | none => "N/A"
    | some none => "N/A"
    | some (some s) => if s = "" then "N/A" else s
  pySlice 500 v

/-- The record appended per paper (lines 229-238). -/
def semanticRecord (p : SemanticPaper) : NormalizedRecord :=
  { source := "Semantic Scholar"
    title := some (p.title.getD "N/A")
    authors := String.intercalate ", " (p.authors.map fun a => a.getD "")
    year := some (p.year.getD "N/A")
    abstract := semanticAbstract p.abstract
    url := some (p.url.getD "N/A")
    citations := Citations.count (p.citationCount.getD 0)
    venue := p.venueName.getD "N/A" }

/-- search_semantic_scholar_async (lines 209-244).  num_results only feeds
the upstream limit query parameter (line 218); the loop applies no local
cap. -/
def search_semantic_scholar_async (u : SemanticUpstream) (num_results : Nat := 10) : List NormalizedRecord :=
  match u with
  | SemanticUpstream.requestError => []
  | SemanticUpstream.papers ps => ps.map semanticRecord

/- ==================== OpenAlex adapter (lines 247-294) ==================== -/

/-- One work object of the OpenAlex JSON.  `authorships` holds, per
authorship, author-key-present? × display_name-present?; the inverted
abstract index is a word → positions association in dict insertion order
(none = key absent or null); `publicationYear` holds the str() of the JSON
value; `hostVenue` is host_venue-present? × display_name-present?. -/
structure OpenAlexWork where
  title : Option String
  authorships : List (Option (Option String))
  abstractInvertedIndex : Option (List (String × List Nat))
  publicationYear : Option String
  doi : Option String
  idUrl : Option String
  citedByCount : Option Nat
  hostVenue : Option (Option String)
deriving DecidableEq, Repr

/-- Upstream behaviour of the OpenAlex HTTP call. -/
inductive OpenAlexUpstream where
  | requestError : OpenAlexUpstream
  | works : List OpenAlexWork → OpenAlexUpstream
deriving DecidableEq, Repr

/-- authorship.get('author', {}).get('display_name', '') (line 266). -/
def openAlexDisplay : Option (Option String) → String
  | none => ""
  | some none => ""
  | some (some s) => s

/-- max(max(positions) for positions in abstract_inv.values()) (line 273)
for an index whose position lists are all nonempty: every position is
bounded by the fold of max. -/
def invertedMax (idx : List (String × List Nat)) : Nat :=
  (idx.map fun wp => wp.2.foldl max 0).foldl max 0

/-- The two nested placement loops (lines 274-276): words[pos] = word for
every word of the index, in dict insertion order, over an initial array. -/
def placeWords (idx : List (String × List Nat)) (ws : List String) : List String :=
  idx.foldl (fun ws wp => wp.2.foldl (fun ws p => ws.set p wp.1) ws) ws

/-- Abstract reconstruction (lines 270-277): a missing or null index or an
empty dict keeps N/A; an index holding an empty positions list raises
(max of an empty sequence, a ValueError escaping to the outer except);
otherwise the placed words are space-joined and sliced to 500. -/
def openAlexAbstract (inv : Option (List (String × List Nat))) : Except Unit String :=
  match inv with
  | none => Except.ok "N/A"
  | some idx =>
    if idx = [] then Except.ok "N/A"
    else if idx.any (fun wp => wp.2.isEmpty) then Except.error ()
    else Except.ok (pySlice 500 (String.intercalate " "
      (placeWords idx (List.replicate (invertedMax idx + 1) ""))))

/-- Per-work processing (lines 264-288); under this model the only raising
path is the abstract reconstruction. -/
def openAlexWorkRecord (w : OpenAlexWork) : Except Unit NormalizedRecord :=
  match openAlexAbstract w.abstractInvertedIndex with
  | Except.error _ => Except.error ()
  | Except.ok abstract =>
    Except.ok
      { source := "OpenAlex"
        title := some (w.title.getD "N/A")
        authors := String.intercalate ", " ((w.authorships.map openAlexDisplay).take 5)
        year := some (w.publicationYear.getD "N/A")
        abstract := abstract
        url := some (w.doi.getD (w.idUrl.getD "N/A"))
        citations := Citations.count (w.citedByCount.getD 0)
        venue := match w.hostVenue with
          | none => "N/A"
          | some none => "N/A"
          | some (some s) => s }

/-- The work loop (lines 264-288): no inner try, so the first work whose
processing raises aborts the loop and the outer except (line 290) returns
the records accumulated so far. -/
def openAlexGo : List OpenAlexWork → List NormalizedRecord → List NormalizedRecord
  | [], acc => acc.reverse
  | w :: rest, acc =>
    match openAlexWorkRecord w with
    | Except.ok r => openAlexGo rest (r :: acc)
    | Except.error _ => acc.reverse

/-- search_openalex_async (lines 247-294).  num_results only feeds the
upstream per-page query parameter (line 256); the loop applies no local
cap. -/
def search_openalex_async (u : OpenAlexUpstream) (num_results : Nat := 10) : List NormalizedRecord :=
  match u with
  | OpenAlexUpstream.requestError => []
  | OpenAlexUpstream.works ws => openAlexGo ws []

/- ==================== Cache gate (lines 23-35, 304-313, 373-377) ==================== -/

/-- The five known source names, in the order of the default list
(line 301). -/
def knownSources : List String := ["scholar", "pubmed", "arxiv", "semantic", "openalex"]

/-- Python string comparison on the underlying character lists:
lexicographic by code point. -/
def charListLe : List Char → List Char → Bool
  | [], _ => true
  | _ :: _, [] => false
  | a :: as, b :: bs =>
    if a.toNat < b.toNat then true
    else if b.toNat < a.toNat then false
    else charListLe as bs

/-- Python string comparison s1 <= s2, as used by sorted. -/
def pyStrLe (a b : String) : Prop := charListLe a.data b.data = true

instance : DecidableRel pyStrLe := fun a b =>
  decidable_of_iff (charListLe a.data b.data = true) Iff.rfl

/-- The string hashed into the cache key (line 304):
query + colon + comma-join of the sorted source list.  The code applies
hashlib.md5(...).hexdigest() to this string; md5 is a fixed deterministic
function, so two calls obtain the same key exactly when they hash the same
input string, which is what the theorems compare.  Python sorted on
strings produces the list ordered by pyStrLe. -/
def cacheKeyInput (query : String) (sources : List String) : String :=
  query ++ ":" ++ String.intercalate "," (List.insertionSort pyStrLe sources)

/-- The envelope dict assembled by search_all_sources (lines 321-326):
sources is a dict in insertion order; serialization to and from the cache
is the identity on this model. -/
structure SearchEnvelope where
  query : String
  timestamp : String
  sources : List (String × List NormalizedRecord)
  total_results : Nat
deriving DecidableEq, Repr

/-- The Redis backend as seen through the code's calls: configured or not
(lines 26-35), its unexpired entries, and whether a get / setex call raises
(each swallowed by a bare except, lines 312-313 and 376-377). -/
structure CacheState where
  configured : Bool
  entries : List (String × SearchEnvelope)
  getRaises : Bool
  setRaises : Bool
deriving DecidableEq, Repr

/-- Cache lookup (lines 306-313): skipped when no client is configured;
a raising get (or a json.loads failure on its result) is swallowed and
treated as a miss; a stored value deserializes to the stored envelope. -/
def cacheLookup (c : CacheState) (key : String) : Option SearchEnvelope :=
  if c.configured && !c.getRaises then
    (c.entries.find? fun e => e.1 == key).map fun e => e.2
  else none

/-- Cache store (lines 373-377): setex with the fixed 86400-second TTL;
skipped when unconfigured; a raising setex is swallowed. -/
def cacheStore (c : CacheState) (key : String) (env : SearchEnvelope) : CacheState :=
  if c.configured && !c.setRaises then
    { c with entries := (key, env) :: c.entries }
  else c

/- ==================== Aggregator (lines 297-379) ==================== -/

/-- The upstream behaviour of the five sources for one request. -/
structure Upstreams where
  scholar : List ScholarEvent
  pubmed : PubmedUpstream
  arxiv : ArxivUpstream
  semantic : SemanticUpstream
  openalex : OpenAlexUpstream
deriving DecidableEq, Repr

/-- Per source: whether a failure escapes the adapter's own guard (e.g. a
cancellation or worker failure at the await), caught by the aggregator's
per-source try (lines 339-341, 348-350, 356-358, 364-366), which
substitutes an empty list and skips the count. -/
structure AggFailures where
  semantic : Bool
  openalex : Bool
  scholar : Bool
  pubmed : Bool
  arxiv : Bool
deriving DecidableEq, Repr

/-- Start / termination events of one adapter invocation, recording the
order in which search_all_sources drives the adapters. -/
inductive Ev where
  | start : String → Ev
  | finish : String → Ev
deriving DecidableEq, Repr

/-- The mutable state of the aggregation loop: the sources dict (insertion
order), the running total, the event trace, and the adapters invoked. -/
structure AggState where
  sources : List (String × List NormalizedRecord)
  total : Nat
  trace : List Ev
  invoked : List String
deriving DecidableEq, Repr

/-- One per-source block of search_all_sources (lines 335-341 for the
coroutines, 344-366 for the to_thread calls): guarded by a membership test
on the selected list; the adapter is driven to completion (the await runs
the coroutine, or blocks on the worker thread, before the next source
starts); on an escaped failure the slot is zeroed and the total untouched. -/
def aggStep (selected : List String) (st : AggState) (run : String × List NormalizedRecord × Bool) : AggState :=
  let name := run.1
  let recs := run.2.1
  let fail := run.2.2
  if name ∈ selected then
    { sources := st.sources ++ [(name, if fail then [] else recs)]
      total := st.total + (if fail then 0 else recs.length)
      trace := st.trace ++ [Ev.start name, Ev.finish name]
      invoked := st.invoked ++ [name] }
  else st

/-- The adapter invocations of search_all_sources in the order the code
awaits them: the semantic and openalex coroutines are created in a list
(lines 329-333) but never scheduled as tasks, so each one first runs when
its own await is reached in the for loop (lines 335-341), strictly after
the previous one completed; the three to_thread calls (lines 344-366) are
each awaited to completion in turn.  Every adapter is called without
num_results, hence with its default of 10. -/
def adapterRuns (u : Upstreams) (fails : AggFailures) : List (String × List NormalizedRecord × Bool) :=
  [("semantic", search_semantic_scholar_async u.semantic 10, fails.semantic),
   ("openalex", search_openalex_async u.openalex 10, fails.openalex),
   ("scholar", search_google_scholar u.scholar 10, fails.scholar),
   ("pubmed", search_pubmed u.pubmed 10, fails.pubmed),
   ("arxiv", search_arxiv u.arxiv 10, fails.arxiv)]

/-- What one call to search_all_sources produces: the returned envelope,
the cache afterwards, the adapter event trace, and the adapters invoked. -/
structure AggResult where
  envelope : SearchEnvelope
  cache : CacheState
  trace : List Ev
  invoked : List String
deriving DecidableEq, Repr

/-- search_all_sources (lines 297-379): default source list, cache lookup
with early return on a hit, sequential dispatch of the selected adapters,
assembly of the envelope with the timestamp taken at entry (line 323), and
a best-effort store. -/
def search_all_sources (query : String) (sourcesOpt : Option (List String))
    (u : Upstreams) (fails : AggFailures) (now : String) (cache : CacheState) : AggResult :=
  let sources := sourcesOpt.getD knownSources
  let key := cacheKeyInput query sources
  match cacheLookup cache key with
  | some env => { envelope := env, cache := cache, trace := [], invoked := [] }
  | none =>
    let st := (adapterRuns u fails).foldl (aggStep sources) ⟨[], 0, [], []⟩
    let env : SearchEnvelope :=
      { query := query, timestamp := now, sources := st.sources, total_results := st.total }
    { envelope := env, cache := cacheStore cache key env, trace := st.trace, invoked := st.invoked }

/- ==================== Endpoint (lines 386-429) ==================== -/

/-- The request body (lines 386-389). -/
structure SearchRequest where
  query : String
  sources : Option (List String)
  num_results : Nat := 10
deriving DecidableEq, Repr

/-- The success response of the search endpoint (lines 422-426). -/
structure SearchResponse where
  success : Bool
  data : SearchEnvelope
  message : String
deriving DecidableEq, Repr

/-- What one call to the endpoint produces. -/
structure EndpointResult where
  response : SearchResponse
  cache : CacheState
  trace : List Ev
  invoked : List String
deriving DecidableEq, Repr

/-- search_endpoint (lines 416-429): forwards query and sources to
search_all_sources; request.num_results is never passed on (line 421), so
every adapter runs with its default limit of 10. -/
def search_endpoint (req : SearchRequest) (u : Upstreams) (fails : AggFailures)
    (now : String) (cache : CacheState) : EndpointResult :=
  let r := search_all_sources req.query req.sources u fails now cache
  { response :=
      { success := true
        data := r.envelope
        message := "✅ Encontrados " ++ toString r.envelope.total_results ++ " artigos" }
    cache := r.cache
    trace := r.trace
    invoked := r.invoked }

/- ==================== Concrete fixtures ==================== -/

/-- A scholarly publication with every field present. -/
def scholarPub0 : ScholarPub :=
  { title := some "T", author := some (Sum.inl ["A"]), pubYear := some "2020"
    abstract := some "Abs", pubUrl := some "http://x", eprintUrl := none
    numCitations := some 3, venueName := some "V" }

/-- Upstreams in which every source fails before yielding anything. -/
def failedUpstreams : Upstreams :=
  { scholar := [ScholarEvent.broken]
    pubmed := PubmedUpstream.esearchError
    arxiv := ArxivUpstream.requestError
    semantic := SemanticUpstream.requestError
    openalex := OpenAlexUpstream.requestError }

/-- No failure escapes any adapter guard. -/
def noAggFailures : AggFailures :=
  { semantic := false, openalex := false, scholar := false, pubmed := false, arxiv := false }

/-- No Redis client configured (the cache-disabled operating mode). -/
def noCache : CacheState :=
  { configured := false, entries := [], getRaises := false, setRaises := false }

/-- A configured, empty, healthy cache backend. -/
def freshCache : CacheState :=
  { configured := true, entries := [], getRaises := false, setRaises := false }

/-- A minimal well-formed arXiv entry. -/
def arxivEntry0 : ArxivEntry :=
  { title := some (some "T"), authors := [], summary := none, published := none, idLink := none }

/- ==================== General helper lemmas ==================== -/

instance {ε α : Type} [DecidableEq ε] [DecidableEq α] : DecidableEq (Except ε α) := fun x y =>
  match x, y with
  | Except.ok a, Except.ok b =>
    if h : a = b then isTrue (congrArg Except.ok h) else isFalse (fun he => h (Except.ok.inj he))
  | Except.error a, Except.error b =>
    if h : a = b then isTrue (congrArg Except.error h) else isFalse (fun he => h (Except.error.inj he))
  | Except.ok a, Except.error b => isFalse (fun he => Except.noConfusion he)
  | Except.error a, Except.ok b => isFalse (fun he => Except.noConfusion he)

/-- A Python slice s[:n] has at most n characters. -/
theorem pySlice_length_le (n : Nat) (s : String) : (pySlice n s).length ≤ n := by
  show (s.data.take n).length ≤ n
  simp [List.length_take]

theorem charListLe_total : ∀ a b : List Char, charListLe a b = true ∨ charListLe b a = true := by
  intro a
  induction a with
  | nil => intro b; left; rfl
  | cons x xs ih =>
    intro b
    cases b with
    | nil => right; rfl
    | cons y ys =>
      simp only [charListLe]
      by_cases h1 : x.toNat < y.toNat
      · left; simp [h1]
      · by_cases h2 : y.toNat < x.toNat
        · right; simp [h1, h2]
        · rcases ih ys with h | h
          · left; simp [h1, h2, h]
          · right; simp [h1, h2, h]

theorem charListLe_trans : ∀ a b c : List Char,
    charListLe a b = true → charListLe b c = true → charListLe a c = true := by
  intro a
  induction a with
  | nil => intro b c h1 h2; rfl
  | cons x xs ih =>
    intro b c h1 h2
    cases b with
    | nil => simp [charListLe] at h1
    | cons y ys =>
      cases c with
      | nil => simp [charListLe] at h2
      | cons z zs =>
        simp only [charListLe] at h1 h2 ⊢
        by_cases hxy : x.toNat < y.toNat
        · by_cases hyz : y.toNat < z.toNat
          · simp [Nat.lt_trans hxy hyz]
          · by_cases hzy : z.toNat < y.toNat
            · simp [hyz, hzy] at h2
            · have hlt : x.toNat < z.toNat := by omega
              simp [hlt]
        · by_cases hyx : y.toNat < x.toNat
          · simp [hxy, hyx] at h1
          · simp only [hxy, hyx, if_false] at h1
            by_cases hyz : y.toNat < z.toNat
            · have hlt : x.toNat < z.toNat := by omega
              simp [hlt]
            · by_cases hzy : z.toNat < y.toNat
              · simp [hyz, hzy] at h2
              · simp only [hyz, hzy, if_false] at h2
                have h3 : ¬ x.toNat < z.toNat := by omega
                have h4 : ¬ z.toNat < x.toNat := by omega
                simp only [h3, h4, if_false]
                exact ih ys zs h1 h2

theorem charListLe_antisymm : ∀ a b : List Char,
    charListLe a b = true → charListLe b a = true → a = b := by
  intro a
  induction a with
  | nil =>
    intro b h1 h2
    cases b with
    | nil => rfl
    | cons y ys => simp [charListLe] at h2
  | cons x xs ih =>
    intro b h1 h2
    cases b with
    | nil => simp [charListLe] at h1
    | cons y ys =>
      simp only [charListLe] at h1 h2
      by_cases hxy : x.toNat < y.toNat
      · by_cases hyx : y.toNat < x.toNat
        · omega
        · simp [hyx, hxy] at h2
      · by_cases hyx : y.toNat < x.toNat
        · simp [hxy, hyx] at h1
        · simp only [hxy, hyx, if_false] at h1 h2
          have hx : x = y := Char.eq_of_val_eq (UInt32.ext (by
            have e1 : x.toNat = x.val.toNat := rfl
            have e2 : y.toNat = y.val.toNat := rfl
            omega))
          rw [hx, ih ys h1 h2]

instance : IsTotal String pyStrLe :=
  ⟨fun a b => charListLe_total a.data b.data⟩

instance : IsTrans String pyStrLe :=
  ⟨fun a b c => charListLe_trans a.data b.data c.data⟩

instance : IsAntisymm String pyStrLe :=
  ⟨fun a b h1 h2 => by
    cases a with
    | mk da =>
      cases b with
      | mk db => exact congrArg String.mk (charListLe_antisymm da db h1 h2)⟩

/-- The scholar loop returns the records of the items yielded before the
first raise, capped at num_results, after whatever was already
accumulated. -/
theorem scholarGo_eq (n : Nat) : ∀ (evs : List ScholarEvent) (i : Nat) (acc : List NormalizedRecord),
    scholarGo n evs i acc =
      acc.reverse ++
        ((((evs.takeWhile fun e => (scholarEventPub e).isSome).filterMap scholarEventPub).take
          (n - i)).map scholarRecord) := by
  intro evs
  induction evs with
  | nil => intro i acc; simp [scholarGo]
  | cons e rest ih =>
    intro i acc
    cases e with
    | broken => simp [scholarGo, scholarEventPub]
    | item p =>
      simp only [scholarGo]
      by_cases h : n ≤ i
      · have h0 : n - i = 0 := Nat.sub_eq_zero_of_le h
        simp [h, h0]
      · have h2 : n - i = (n - (i + 1)) + 1 := by omega
        rw [if_neg h, ih (i + 1) (scholarRecord p :: acc)]
        simp [scholarEventPub, h2, List.take_succ_cons]

/-- The arXiv loop returns a record per entry of the longest prefix whose
processing succeeds, after whatever was already accumulated. -/
theorem arxivGo_eq : ∀ (es : List ArxivEntry) (acc : List NormalizedRecord),
    arxivGo es acc =
      acc.reverse ++ ((es.map arxivEntryRecord).takeWhile Except.isOk).filterMap Except.toOption := by
  intro es
  induction es with
  | nil => intro acc; simp [arxivGo]
  | cons e rest ih =>
    intro acc
    simp only [arxivGo]
    cases he : arxivEntryRecord e with
    | ok r =>
      have hred : (match (Except.ok r : Except Unit NormalizedRecord) with
        | Except.ok x => arxivGo rest (x :: acc)
        | Except.error _ => acc.reverse) = arxivGo rest (r :: acc) := rfl
      rw [hred, ih (r :: acc)]
      simp [he, Except.isOk, Except.toBool, Except.toOption]
    | error u => simp [he, Except.isOk, Except.toBool]

/-- The OpenAlex loop returns a record per work of the longest prefix whose
processing succeeds, after whatever was already accumulated. -/
theorem openAlexGo_eq : ∀ (ws : List OpenAlexWork) (acc : List NormalizedRecord),
    openAlexGo ws acc =
      acc.reverse ++ ((ws.map openAlexWorkRecord).takeWhile Except.isOk).filterMap Except.toOption := by
  intro ws
  induction ws with
  | nil => intro acc; simp [openAlexGo]
  | cons w rest ih =>
    intro acc
    simp only [openAlexGo]
    cases hw : openAlexWorkRecord w with
    | ok r =>
      have hred : (match (Except.ok r : Except Unit NormalizedRecord) with
        | Except.ok x => openAlexGo rest (x :: acc)
        | Except.error _ => acc.reverse) = openAlexGo rest (r :: acc) := rfl
      rw [hred, ih (r :: acc)]
      simp [hw, Except.isOk, Except.toBool, Except.toOption]
    | error u => simp [hw, Except.isOk, Except.toBool]

/-- Members of a takeWhile segment are members of the list. -/
theorem mem_of_mem_takeWhile {α : Type} (p : α → Bool) :
    ∀ (l : List α) (x : α), x ∈ l.takeWhile p → x ∈ l := by
  intro l
  induction l with
  | nil => intro x hx; simp at hx
  | cons a rest ih =>
    intro x hx
    rw [List.takeWhile_cons] at hx
    by_cases hp : p a
    · rw [if_pos hp] at hx
      rcases List.mem_cons.mp hx with hx | hx
      · exact hx ▸ List.mem_cons_self a rest
      · exact List.mem_cons_of_mem a (ih x hx)
    · rw [if_neg hp] at hx
      cases hx

/-- A takeWhile segment is no longer than the list. -/
theorem length_takeWhile_le2 {α : Type} (p : α → Bool) :
    ∀ l : List α, (l.takeWhile p).length ≤ l.length := by
  intro l
  induction l with
  | nil => exact Nat.le_refl 0
  | cons a rest ih =>
    rw [List.takeWhile_cons]
    by_cases hp : p a
    · rw [if_pos hp]
      exact Nat.succ_le_succ ih
    · rw [if_neg hp]
      exact Nat.zero_le _

/-- Every record of the arXiv loop output comes from a successfully
processed entry. -/
theorem search_arxiv_mem (u : ArxivUpstream) (n : Nat) (r : NormalizedRecord)
    (h : r ∈ search_arxiv u n) : ∃ e, arxivEntryRecord e = Except.ok r := by
  cases u with
  | requestError => simp [search_arxiv] at h
  | entries es =>
    simp only [search_arxiv, arxivGo_eq, List.reverse_nil, List.nil_append] at h
    obtain ⟨x, hx, hxr⟩ := List.mem_filterMap.mp h
    cases x with
    | error b => simp [Except.toOption] at hxr
    | ok a =>
      have ha : a = r := by simpa [Except.toOption] using hxr
      subst ha
      have hxm : Except.ok a ∈ es.map arxivEntryRecord :=
        mem_of_mem_takeWhile Except.isOk _ _ hx
      obtain ⟨e, he, hex⟩ := List.mem_map.mp hxm
      exact ⟨e, hex⟩

/-- Every record of the OpenAlex loop output comes from a successfully
processed work. -/
theorem search_openalex_mem (u : OpenAlexUpstream) (n : Nat) (r : NormalizedRecord)
    (h : r ∈ search_openalex_async u n) : ∃ w, openAlexWorkRecord w = Except.ok r := by
  cases u with
  | requestError => simp [search_openalex_async] at h
  | works ws =>
    simp only [search_openalex_async, openAlexGo_eq, List.reverse_nil, List.nil_append] at h
    obtain ⟨x, hx, hxr⟩ := List.mem_filterMap.mp h
    cases x with
    | error b => simp [Except.toOption] at hxr
    | ok a =>
      have ha : a = r := by simpa [Except.toOption] using hxr
      subst ha
      have hxm : Except.ok a ∈ ws.map openAlexWorkRecord :=
        mem_of_mem_takeWhile Except.isOk _ _ hx
      obtain ⟨w, hw, hwx⟩ := List.mem_map.mp hxm
      exact ⟨w, hwx⟩

/-- The arXiv abstract expression is at most 500 characters. -/
theorem arxivAbstract_length (summary : String) : (arxivAbstract summary).length ≤ 500 := by
  unfold arxivAbstract
  split
  · decide
  · exact pySlice_length_le 500 summary

/-- A successful arXiv entry record carries the three fixed fields and a
bounded abstract. -/
theorem arxivEntryRecord_fields (e : ArxivEntry) (r : NormalizedRecord)
    (h : arxivEntryRecord e = Except.ok r) :
    r.source = "arXiv" ∧ r.venue = "arXiv Preprint" ∧ r.citations = Citations.na ∧
      r.abstract.length ≤ 500 := by
  unfold arxivEntryRecord at h
  split at h
  · exact absurd h (by simp)
  · split at h
    · exact absurd h (by simp)
    · split at h
      · exact absurd h (by simp)
      · split at h
        · exact absurd h (by simp)
        · split at h
          · exact absurd h (by simp)
          · cases h
            exact ⟨rfl, rfl, rfl, arxivAbstract_length _⟩

/-- An OpenAlex abstract reconstruction that succeeds is at most 500
characters. -/
theorem openAlexAbstract_length (inv : Option (List (String × List Nat))) (s : String)
    (h : openAlexAbstract inv = Except.ok s) : s.length ≤ 500 := by
  unfold openAlexAbstract at h
  split at h
  · cases h; decide
  · split at h
    · cases h; decide
    · split at h
      · exact absurd h (by simp)
      · cases h
        exact pySlice_length_le 500 _

/-- A successful OpenAlex work record carries a bounded abstract and the
capped author join. -/
theorem openAlexWorkRecord_fields (w : OpenAlexWork) (r : NormalizedRecord)
    (h : openAlexWorkRecord w = Except.ok r) :
    r.abstract.length ≤ 500 ∧
      r.authors = String.intercalate ", " ((w.authorships.map openAlexDisplay).take 5) := by
  unfold openAlexWorkRecord at h
  split at h
  · exact absurd h (by simp)
  · rename_i abstract ha
    cases h
    exact ⟨openAlexAbstract_length w.abstractInvertedIndex abstract ha, rfl⟩

/-- Every PubMed record carries a bounded abstract. -/
theorem pubmedArticleRecord_abstract (a : PubmedArticle) (r : NormalizedRecord)
    (h : pubmedArticleRecord a = some r) : r.abstract.length ≤ 500 := by
  unfold pubmedArticleRecord at h
  split at h
  · exact absurd h (by simp)
  · cases h
    show (match a.abstractElem with
      | none => "N/A"
      | some none => "N/A"
      | some (some s) => if s = "N/A" then "N/A" else pySlice 500 s).length ≤ 500
    split
    · decide
    · decide
    · split
      · decide
      · exact pySlice_length_le 500 _

/-- The semantic abstract expression is at most 500 characters. -/
theorem semanticAbstract_length (a : Option (Option String)) :
    (semanticAbstract a).length ≤ 500 :=
  pySlice_length_le 500 _

/-- The seed of a max fold bounds nothing from above: it is itself below
the fold. -/
theorem le_foldl_max (l : List Nat) (b : Nat) : b ≤ l.foldl max b := by
  induction l generalizing b with
  | nil => exact Nat.le_refl b
  | cons a rest ih => exact Nat.le_trans (Nat.le_max_left b a) (ih (max b a))

/-- Every member of a list is below its max fold. -/
theorem mem_le_foldl_max (l : List Nat) (b x : Nat) (h : x ∈ l) : x ≤ l.foldl max b := by
  induction l generalizing b with
  | nil => cases h
  | cons a rest ih =>
    rcases List.mem_cons.mp h with h | h
    · subst h
      exact Nat.le_trans (Nat.le_max_right b x) (le_foldl_max rest (max b x))
    · exact ih (max b a) h

/-- Every position of the inverted index is bounded by invertedMax. -/
theorem mem_le_invertedMax (idx : List (String × List Nat)) (wp : String × List Nat)
    (p : Nat) (hwp : wp ∈ idx) (hp : p ∈ wp.2) : p ≤ invertedMax idx := by
  have h1 : p ≤ wp.2.foldl max 0 := mem_le_foldl_max wp.2 0 p hp
  have h2 : wp.2.foldl max 0 ∈ idx.map fun x => x.2.foldl max 0 :=
    List.mem_map_of_mem (fun x => x.2.foldl max 0) hwp
  exact Nat.le_trans h1 (mem_le_foldl_max _ 0 _ h2)

/-- The inner placement loop keeps the array length. -/
theorem setFold_length (w : String) (ps : List Nat) (ws : List String) :
    (ps.foldl (fun ws p => ws.set p w) ws).length = ws.length := by
  induction ps generalizing ws with
  | nil => rfl
  | cons p rest ih =>
    simp only [List.foldl_cons]
    rw [ih, List.length_set]

/-- The outer placement loop keeps the array length. -/
theorem placeWords_length (idx : List (String × List Nat)) (ws : List String) :
    (placeWords idx ws).length = ws.length := by
  induction idx generalizing ws with
  | nil => rfl
  | cons wp rest ih =>
    show (placeWords rest (wp.2.foldl (fun ws p => ws.set p wp.1) ws)).length = ws.length
    rw [ih, setFold_length]

/-- What the inner placement loop leaves at each position. -/
theorem setFold_getElem (w : String) (ps : List Nat) (ws : List String) (q : Nat) :
    (ps.foldl (fun ws p => ws.set p w) ws)[q]? =
      if q ∈ ps ∧ q < ws.length then some w else ws[q]? := by
  induction ps generalizing ws with
  | nil => simp
  | cons p rest ih =>
    simp only [List.foldl_cons]
    rw [ih, List.length_set]
    by_cases h1 : q ∈ rest ∧ q < ws.length
    · rw [if_pos h1, if_pos ⟨List.mem_cons_of_mem p h1.1, h1.2⟩]
    · rw [if_neg h1, List.getElem?_set]
      by_cases h2 : p = q
      · subst h2
        by_cases h3 : p < ws.length
        · rw [if_pos rfl, if_pos h3, if_pos ⟨List.mem_cons_self p rest, h3⟩]
        · rw [if_pos rfl, if_neg h3, if_neg (fun hc => h3 hc.2),
            List.getElem?_eq_none (Nat.le_of_not_lt h3)]
      · rw [if_neg h2]
        by_cases h4 : q ∈ p :: rest ∧ q < ws.length
        · exact absurd ⟨(List.mem_cons.mp h4.1).resolve_left (fun he => h2 he.symm), h4.2⟩ h1
        · rw [if_neg h4]

/-- A position occupied by no word of the index is untouched by the
placement loops. -/
theorem placeWords_getElem_untouched (idx : List (String × List Nat)) (ws : List String)
    (q : Nat) (h : ∀ wp ∈ idx, q ∉ wp.2) : (placeWords idx ws)[q]? = ws[q]? := by
  induction idx generalizing ws with
  | nil => rfl
  | cons wp rest ih =>
    show (placeWords rest (wp.2.foldl (fun ws p => ws.set p wp.1) ws))[q]? = ws[q]?
    rw [ih _ (fun b hb => h b (List.mem_cons_of_mem wp hb)), setFold_getElem]
    rw [if_neg (fun hc => h wp (List.mem_cons_self wp rest) hc.1)]

/-- A position occupied by a word of a position-disjoint index receives
that word. -/
theorem placeWords_getElem_mem (idx : List (String × List Nat)) (ws : List String)
    (wp : String × List Nat) (q : Nat)
    (hdisj : ∀ a ∈ idx, ∀ b ∈ idx, ∀ p ∈ a.2, p ∈ b.2 → a = b)
    (hwp : wp ∈ idx) (hq : q ∈ wp.2) (hlen : q < ws.length) :
    (placeWords idx ws)[q]? = some wp.1 := by
  induction idx generalizing ws with
  | nil => cases hwp
  | cons hd rest ih =>
    show (placeWords rest (hd.2.foldl (fun ws p => ws.set p hd.1) ws))[q]? = some wp.1
    have hlen2 : q < (hd.2.foldl (fun ws p => ws.set p hd.1) ws).length := by
      rw [setFold_length]; exact hlen
    have hdisj2 : ∀ a ∈ rest, ∀ b ∈ rest, ∀ p ∈ a.2, p ∈ b.2 → a = b :=
      fun a ha b hb p hpa hpb =>
        hdisj a (List.mem_cons_of_mem hd ha) b (List.mem_cons_of_mem hd hb) p hpa hpb
    rcases List.mem_cons.mp hwp with hwph | hwpr
    · subst hwph
      by_cases hocc : ∃ b ∈ rest, q ∈ b.2
      · obtain ⟨b, hb, hqb⟩ := hocc
        have heq : b = wp :=
          hdisj b (List.mem_cons_of_mem wp hb) wp (List.mem_cons_self wp rest) q hqb hq
        rw [ih _ hdisj2 (heq ▸ hb) hlen2]
      · push_neg at hocc
        rw [placeWords_getElem_untouched rest _ q hocc, setFold_getElem,
          if_pos ⟨hq, hlen⟩]
    · by_cases hocc : q ∈ hd.2
      · have heq : hd = wp :=
          hdisj hd (List.mem_cons_self hd rest) wp (List.mem_cons_of_mem hd hwpr) q hocc hq
        subst heq
        exact ih _ hdisj2 hwpr hlen2
      · exact ih _ hdisj2 hwpr hlen2

/-- The envelope invariant: total_results equals the sum of the per-source
record counts. -/
def envOk (e : SearchEnvelope) : Prop :=
  e.total_results = (e.sources.map fun p => p.2.length).sum

instance (e : SearchEnvelope) : Decidable (envOk e) :=
  decidable_of_iff (e.total_results = (e.sources.map fun p => p.2.length).sum) Iff.rfl

/-- The aggregation fold keeps the running total equal to the sum of the
inserted record counts. -/
theorem aggFold_total (selected : List String) (runs : List (String × List NormalizedRecord × Bool))
    (st : AggState) (h : st.total = (st.sources.map fun p => p.2.length).sum) :
    (runs.foldl (aggStep selected) st).total =
      ((runs.foldl (aggStep selected) st).sources.map fun p => p.2.length).sum := by
  induction runs generalizing st with
  | nil => exact h
  | cons run rest ih =>
    simp only [List.foldl_cons]
    apply ih
    simp only [aggStep]
    split
    · by_cases hf : run.2.2
      · simp [hf, h]
      · simp [hf, h]
    · exact h

/-- The aggregation fold appends exactly the selected run names to the
sources dict, in run order. -/
theorem aggFold_keys (selected : List String) (runs : List (String × List NormalizedRecord × Bool))
    (st : AggState) :
    ((runs.foldl (aggStep selected) st).sources).map Prod.fst =
      st.sources.map Prod.fst ++
        (runs.map fun run => run.1).filter fun s => decide (s ∈ selected) := by
  induction runs generalizing st with
  | nil => simp
  | cons run rest ih =>
    simp only [List.foldl_cons, List.map_cons, List.filter_cons]
    rw [ih]
    simp only [aggStep]
    by_cases hm : run.1 ∈ selected
    · simp [hm]
    · simp [hm]

/-- A store into a healthy configured backend is immediately visible to a
lookup of the same key. -/
theorem cacheLookup_store (cache : CacheState) (key : String) (env : SearchEnvelope)
    (h1 : cache.configured = true) (h2 : cache.getRaises = false) (h3 : cache.setRaises = false) :
    cacheLookup (cacheStore cache key env) key = some env := by
  simp [cacheStore, cacheLookup, h1, h2, h3, List.find?]

/- ==================== Claim theorems ==================== -/

/-- C1: for every query and selected source set (and any upstream
behaviour, escaped failures included), the envelope returned by
search_all_sources has total_results equal to the sum of the lengths of
the per-source record lists of its sources mapping; the hypothesis states
that every envelope already in the cache satisfies the same invariant
(only envelopes assembled by this function are ever stored, as the second
conjunct shows), which covers the cache-hit return path as well. -/
theorem claim1_total_results_is_sum (query : String) (sourcesOpt : Option (List String))
    (u : Upstreams) (fails : AggFailures) (now : String) (cache : CacheState)
    (hc : ∀ e ∈ cache.entries, envOk e.2) :
    envOk (search_all_sources query sourcesOpt u fails now cache).envelope ∧
      ∀ e ∈ (search_all_sources query sourcesOpt u fails now cache).cache.entries, envOk e.2 := by
  cases hl : cacheLookup cache (cacheKeyInput query (sourcesOpt.getD knownSources)) with
  | some env =>
    have hres : search_all_sources query sourcesOpt u fails now cache =
        { envelope := env, cache := cache, trace := [], invoked := [] } := by
      simp [search_all_sources, hl]
    rw [hres]
    refine ⟨?_, hc⟩
    unfold cacheLookup at hl
    split at hl
    · obtain ⟨p, hp, hpe⟩ := Option.map_eq_some'.mp hl
      exact hpe ▸ hc p (List.mem_of_find?_eq_some hp)
    · cases hl
  | none =>
    have henv : envOk (search_all_sources query sourcesOpt u fails now cache).envelope := by
      have hres : (search_all_sources query sourcesOpt u fails now cache).envelope =
          { query := query, timestamp := now
            sources := ((adapterRuns u fails).foldl
              (aggStep (sourcesOpt.getD knownSources)) ⟨[], 0, [], []⟩).sources
            total_results := ((adapterRuns u fails).foldl
              (aggStep (sourcesOpt.getD knownSources)) ⟨[], 0, [], []⟩).total } := by
        simp [search_all_sources, hl]
      rw [hres]
      show ((adapterRuns u fails).foldl (aggStep (sourcesOpt.getD knownSources)) ⟨[], 0, [], []⟩).total
        = _
      exact aggFold_total _ _ _ rfl
    refine ⟨henv, ?_⟩
    have hres2 : (search_all_sources query sourcesOpt u fails now cache).cache =
        cacheStore cache (cacheKeyInput query (sourcesOpt.getD knownSources))
          (search_all_sources query sourcesOpt u fails now cache).envelope := by
      simp [search_all_sources, hl]
    rw [hres2]
    unfold cacheStore
    split
    · intro e he
      rcases List.mem_cons.mp he with he | he
      · rw [he]; exact henv
      · exact hc e he
    · exact hc

/-- C2 counterexample: the scholarly iterator yields one publication and
then raises; the claim says a failing adapter returns an empty sequence,
but search_google_scholar returns the one record accumulated before the
failure. -/
theorem claim2_counterexample :
    search_google_scholar [ScholarEvent.item scholarPub0, ScholarEvent.broken] 10 ≠ [] := by
  decide

/-- C2 (amended): no adapter raises to its caller (each model is a total
function into a record list); a failure that occurs before any record is
produced (transport error, timeout, top-level parse failure, or an efetch
failure) yields the empty sequence, and a failure occurring mid-enumeration
yields exactly the records accumulated before it: the scholar loop returns
the yielded prefix (capped at num_results), the arXiv and OpenAlex loops
return the longest prefix of successfully processed items, and PubMed,
whose per-article guard catches instead, skips exactly the articles whose
processing raises and keeps every other record in order (the filterMap of
per-article processing over the fetched article list). -/
theorem claim2_amended_empty_on_initial_failure :
    (∀ n, search_google_scholar [ScholarEvent.broken] n = [])
    ∧ (∀ n, search_pubmed PubmedUpstream.esearchError n = [])
    ∧ (∀ ids n, search_pubmed (PubmedUpstream.results ids none) n = [])
    ∧ (∀ n, search_arxiv ArxivUpstream.requestError n = [])
    ∧ (∀ n, search_semantic_scholar_async SemanticUpstream.requestError n = [])
    ∧ (∀ n, search_openalex_async OpenAlexUpstream.requestError n = [])
    ∧ (∀ evs n, search_google_scholar evs n =
        ((((evs.takeWhile fun e => (scholarEventPub e).isSome).filterMap scholarEventPub).take
          n).map scholarRecord))
    ∧ (∀ es n, search_arxiv (ArxivUpstream.entries es) n =
        ((es.map arxivEntryRecord).takeWhile Except.isOk).filterMap Except.toOption)
    ∧ (∀ ws n, search_openalex_async (OpenAlexUpstream.works ws) n =
        ((ws.map openAlexWorkRecord).takeWhile Except.isOk).filterMap Except.toOption)
    ∧ (∀ id0 ids arts n, search_pubmed (PubmedUpstream.results (id0 :: ids) (some arts)) n =
        arts.filterMap pubmedArticleRecord)
    ∧ (∀ id0 ids pre bad post n, search_pubmed
          (PubmedUpstream.results (id0 :: ids) (some (pre ++ bad :: post))) n =
        pre.filterMap pubmedArticleRecord ++
          (pubmedArticleRecord bad).toList ++ post.filterMap pubmedArticleRecord) := by
  refine ⟨fun n => rfl, fun n => rfl, fun ids n => ?_, fun n => rfl, fun n => rfl, fun n => rfl,
    fun evs n => ?_, fun es n => ?_, fun ws n => ?_, fun id0 ids arts n => rfl,
    fun id0 ids pre bad post n => ?_⟩
  · simp only [search_pubmed]
    split <;> rfl
  · rw [search_google_scholar, scholarGo_eq]
    simp
  · rw [search_arxiv, arxivGo_eq]
    simp
  · rw [search_openalex_async, openAlexGo_eq]
    simp
  · show (pre ++ bad :: post).filterMap pubmedArticleRecord = _
    rw [List.filterMap_append, List.filterMap_cons]
    cases pubmedArticleRecord bad with
    | none => simp [Option.toList]
    | some r => simp [Option.toList]

/-- C5: evaluating the aggregator's dispatch trace on a request selecting
the two coroutine-based sources shows that the semantic adapter is driven
to completion before the openalex adapter first starts: the coroutines are
created in a list but never scheduled as tasks, so the for loop awaits
them one after the other, and the three to_thread sources follow likewise;
the dispatch is fully sequential, against the claim's joint start /
joint await. -/
theorem claim5_sequential_dispatch :
    (search_all_sources "q" (some ["semantic", "openalex"]) failedUpstreams noAggFailures
      "t" noCache).trace =
      [Ev.start "semantic", Ev.finish "semantic", Ev.start "openalex", Ev.finish "openalex"] := by
  decide

/-- C7: the cache key input is invariant under reordering of the supplied
source list, because the key hashes the comma-join of the sorted list; two
permuted source lists therefore produce identical md5 keys. -/
theorem claim7_cache_key_order_invariant (query : String) (s1 s2 : List String)
    (h : s1.Perm s2) : cacheKeyInput query s1 = cacheKeyInput query s2 := by
  unfold cacheKeyInput
  have hsort : List.insertionSort pyStrLe s1 = List.insertionSort pyStrLe s2 :=
    List.eq_of_perm_of_sorted
      ((List.perm_insertionSort pyStrLe s1).trans
        (h.trans (List.perm_insertionSort pyStrLe s2).symm))
      (List.sorted_insertionSort pyStrLe s1)
      (List.sorted_insertionSort pyStrLe s2)
  rw [hsort]

/-- C7 witness: the two orderings of pubmed and arxiv give the same key. -/
theorem claim7_cache_key_order_invariant_witness :
    List.Perm ["pubmed", "arxiv"] ["arxiv", "pubmed"] ∧
      cacheKeyInput "q" ["pubmed", "arxiv"] = cacheKeyInput "q" ["arxiv", "pubmed"] :=
  ⟨by decide, claim7_cache_key_order_invariant "q" ["pubmed", "arxiv"] ["arxiv", "pubmed"] (by decide)⟩

/-- C9: every record produced by any of the five adapters, for every
upstream behaviour, has an abstract of at most 500 characters. -/
theorem claim9_abstract_at_most_500 :
    (∀ evs n, ∀ r ∈ search_google_scholar evs n, r.abstract.length ≤ 500)
    ∧ (∀ u n, ∀ r ∈ search_pubmed u n, r.abstract.length ≤ 500)
    ∧ (∀ u n, ∀ r ∈ search_arxiv u n, r.abstract.length ≤ 500)
    ∧ (∀ u n, ∀ r ∈ search_semantic_scholar_async u n, r.abstract.length ≤ 500)
    ∧ (∀ u n, ∀ r ∈ search_openalex_async u n, r.abstract.length ≤ 500) := by
  refine ⟨fun evs n r hr => ?_, fun u n r hr => ?_, fun u n r hr => ?_,
    fun u n r hr => ?_, fun u n r hr => ?_⟩
  · rw [search_google_scholar, scholarGo_eq] at hr
    simp only [List.reverse_nil, List.nil_append] at hr
    obtain ⟨p, hp, hpr⟩ := List.mem_map.mp hr
    rw [← hpr]
    exact pySlice_length_le 500 _
  · cases u with
    | esearchError => simp [search_pubmed] at hr
    | results ids fetch =>
      simp only [search_pubmed] at hr
      split at hr
      · simp at hr
      · cases fetch with
        | none => simp at hr
        | some articles =>
          obtain ⟨a, ha, har⟩ := List.mem_filterMap.mp hr
          exact pubmedArticleRecord_abstract a r har
  · obtain ⟨e, he⟩ := search_arxiv_mem u n r hr
    exact (arxivEntryRecord_fields e r he).2.2.2
  · cases u with
    | requestError => simp [search_semantic_scholar_async] at hr
    | papers ps =>
      obtain ⟨p, hp, hpr⟩ := List.mem_map.mp hr
      rw [← hpr]
      exact semanticAbstract_length p.abstract
  · obtain ⟨w, hw⟩ := search_openalex_mem u n r hr
    exact (openAlexWorkRecord_fields w r hw).1

/-- C9 witness: a concrete scholar record is produced and obeys the bound. -/
theorem claim9_abstract_at_most_500_witness :
    scholarRecord scholarPub0 ∈ search_google_scholar [ScholarEvent.item scholarPub0] 10 ∧
      (scholarRecord scholarPub0).abstract.length ≤ 500 :=
  ⟨by decide, claim9_abstract_at_most_500.1 [ScholarEvent.item scholarPub0] 10
    (scholarRecord scholarPub0) (by decide)⟩

/-- The example inverted abstract index of the spec. -/
def exInvIdx : List (String × List Nat) := [("deep", [0, 2]), ("learning", [1])]

/-- C6: for every inverted abstract index whose position lists are nonempty
and position-disjoint across words (as an inverted index of a text is),
the OpenAlex adapter reconstructs the pre-truncation word array by placing
each word at every 0-based position it occupies and leaving the empty
token in every gap, then space-joins and truncates; in particular the
example index reconstructs to the text deep learning deep. -/
theorem claim6_inverted_index_reconstruction :
    (∀ idx : List (String × List Nat),
      (∀ wp ∈ idx, wp.2 ≠ []) →
      (∀ a ∈ idx, ∀ b ∈ idx, ∀ p ∈ a.2, p ∈ b.2 → a = b) →
      idx ≠ [] →
      (openAlexAbstract (some idx) = Except.ok (pySlice 500 (String.intercalate " "
          (placeWords idx (List.replicate (invertedMax idx + 1) ""))))
        ∧ (placeWords idx (List.replicate (invertedMax idx + 1) "")).length = invertedMax idx + 1
        ∧ (∀ wp ∈ idx, ∀ p ∈ wp.2,
            (placeWords idx (List.replicate (invertedMax idx + 1) ""))[p]? = some wp.1)
        ∧ (∀ p, p < invertedMax idx + 1 → (∀ wp ∈ idx, p ∉ wp.2) →
            (placeWords idx (List.replicate (invertedMax idx + 1) ""))[p]? = some "")))
    ∧ openAlexAbstract (some exInvIdx) = Except.ok "deep learning deep" := by
  constructor
  · intro idx h1 h2 h3
    have hany : idx.any (fun wp => wp.2.isEmpty) = false := by
      rw [List.any_eq_false]
      intro wp hwp
      simpa using h1 wp hwp
    refine ⟨?_, ?_, ?_, ?_⟩
    · simp [openAlexAbstract, h3, hany]
    · rw [placeWords_length, List.length_replicate]
    · intro wp hwp p hp
      apply placeWords_getElem_mem idx _ wp p h2 hwp hp
      rw [List.length_replicate]
      exact Nat.lt_succ_of_le (mem_le_invertedMax idx wp p hwp hp)
    · intro p hpn hun
      rw [placeWords_getElem_untouched idx _ p hun, List.getElem?_replicate, if_pos hpn]
  · decide

/-- C6 witness: the universal statement applied to the example index. -/
theorem claim6_inverted_index_reconstruction_witness :
    ((∀ wp ∈ exInvIdx, wp.2 ≠ []) ∧
      (∀ a ∈ exInvIdx, ∀ b ∈ exInvIdx, ∀ p ∈ a.2, p ∈ b.2 → a = b) ∧ exInvIdx ≠ []) ∧
    (openAlexAbstract (some exInvIdx) = Except.ok (pySlice 500 (String.intercalate " "
        (placeWords exInvIdx (List.replicate (invertedMax exInvIdx + 1) ""))))
      ∧ (placeWords exInvIdx (List.replicate (invertedMax exInvIdx + 1) "")).length =
          invertedMax exInvIdx + 1
      ∧ (∀ wp ∈ exInvIdx, ∀ p ∈ wp.2,
          (placeWords exInvIdx (List.replicate (invertedMax exInvIdx + 1) ""))[p]? = some wp.1)
      ∧ (∀ p, p < invertedMax exInvIdx + 1 → (∀ wp ∈ exInvIdx, p ∉ wp.2) →
          (placeWords exInvIdx (List.replicate (invertedMax exInvIdx + 1) ""))[p]? = some "")) :=
  ⟨⟨by decide, by decide, by decide⟩,
    claim6_inverted_index_reconstruction.1 exInvIdx (by decide) (by decide) (by decide)⟩

/-- Collected arXiv author names are the inner texts when every author
element has an atom:name child with a text. -/
theorem arxivNames_all_some (l : List ArxivAuthorElem) (names : List String)
    (h : l.map ArxivAuthorElem.name = names.map fun s => some (some s)) :
    arxivNames l = Except.ok (names.map some) := by
  induction l generalizing names with
  | nil =>
    cases names with
    | nil => rfl
    | cons s rest => simp at h
  | cons a rest ih =>
    cases names with
    | nil => simp at h
    | cons s names2 =>
      simp only [List.map_cons, List.cons.injEq] at h
      rw [arxivNames, h.1, ih names2 h.2]
      rfl

/-- An OpenAlex work with six authorships, none of its other keys
present. -/
def sixAuthorWork : OpenAlexWork :=
  { title := none
    authorships := [some (some "A"), some (some "B"), some (some "C"),
      some (some "D"), some (some "E"), some (some "F")]
    abstractInvertedIndex := none
    publicationYear := none
    doi := none
    idUrl := none
    citedByCount := none
    hostVenue := none }

/-- C10: the OpenAlex adapter joins only the first five authorship display
names, dropping the rest, while the other four adapters join every parsed
author; the final conjunct evaluates the six-author example, whose sixth
name is dropped. -/
theorem claim10_openalex_five_author_cap :
    (∀ w r, openAlexWorkRecord w = Except.ok r →
      r.authors = String.intercalate ", " ((w.authorships.map openAlexDisplay).take 5))
    ∧ (∀ p, (semanticRecord p).authors =
        String.intercalate ", " (p.authors.map fun a => a.getD ""))
    ∧ (∀ p l, p.author = some (Sum.inl l) →
        (scholarRecord p).authors = String.intercalate ", " l)
    ∧ (∀ a r, pubmedArticleRecord a = some r →
        r.authors = String.intercalate ", " (pubmedAuthorNames a.authors))
    ∧ (∀ e r names, arxivEntryRecord e = Except.ok r →
        e.authors.map ArxivAuthorElem.name = names.map (fun s => some (some s)) →
        r.authors = String.intercalate ", " names)
    ∧ (openAlexWorkRecord sixAuthorWork).map (fun r => r.authors) = Except.ok "A, B, C, D, E" := by
  refine ⟨fun w r h => (openAlexWorkRecord_fields w r h).2, fun p => rfl,
    fun p l h => ?_, fun a r h => ?_, fun e r names hok hnames => ?_, by decide⟩
  · simp [scholarRecord, h]
  · unfold pubmedArticleRecord at h
    split at h
    · exact absurd h (by simp)
    · cases h
      rfl
  · have hns : arxivNames e.authors = Except.ok (names.map some) :=
      arxivNames_all_some e.authors names hnames
    have hall : (names.map some).all Option.isSome = true := by
      simp [List.all_eq_true]
    have hmap : (names.map some).map (fun o => o.getD "") = names := by
      rw [List.map_map]
      exact List.map_id names
    have hj : pyJoin ", " (names.map some) = Except.ok (String.intercalate ", " names) := by
      unfold pyJoin
      rw [if_pos hall, hmap]
    unfold arxivEntryRecord at hok
    split at hok
    · exact absurd hok (by simp)
    · split at hok
      · exact absurd hok (by simp)
      · rename_i authors heqa
        have hae : names.map some = authors := Except.ok.inj (hns.symm.trans heqa)
        subst hae
        split at hok
        · exact absurd hok (by simp)
        · split at hok
          · exact absurd hok (by simp)
          · split at hok
            · exact absurd hok (by simp)
            · rename_i astr heqj
              cases hok
              exact (Except.ok.inj (hj.symm.trans heqj)).symm

/-- C10 witness: the six-author work yields a record whose authors field is
the capped join. -/
theorem claim10_openalex_five_author_cap_witness :
    openAlexWorkRecord sixAuthorWork = Except.ok
      { source := "OpenAlex", title := some "N/A", authors := "A, B, C, D, E"
        year := some "N/A", abstract := "N/A", url := some "N/A"
        citations := Citations.count 0, venue := "N/A" } ∧
    ({ source := "OpenAlex", title := some "N/A", authors := "A, B, C, D, E"
       year := some "N/A", abstract := "N/A", url := some "N/A"
       citations := Citations.count 0, venue := "N/A" } : NormalizedRecord).authors =
      String.intercalate ", " ((sixAuthorWork.authorships.map openAlexDisplay).take 5) :=
  ⟨by decide, claim10_openalex_five_author_cap.1 sixAuthorWork _ (by decide)⟩

/-- C1 witness: an empty unconfigured cache satisfies the hypothesis, with
an aggregator-level failure substituting the scholar slot. -/
theorem claim1_total_results_is_sum_witness :
    (∀ e ∈ noCache.entries, envOk e.2) ∧
      envOk (search_all_sources "q" none failedUpstreams
        { noAggFailures with scholar := true } "t" noCache).envelope :=
  ⟨by simp [noCache], (claim1_total_results_is_sum "q" none failedUpstreams
    { noAggFailures with scholar := true } "t" noCache (by simp [noCache])).1⟩

/-- A cache hit short-circuits search_all_sources: the stored envelope is
returned, the cache is untouched, no adapter runs. -/
theorem search_all_sources_hit :
    ∀ (query : String) (sourcesOpt : Option (List String)) (u : Upstreams) (fails : AggFailures)
        (now : String) (cache : CacheState) (env : SearchEnvelope),
      cacheLookup cache (cacheKeyInput query (sourcesOpt.getD knownSources)) = some env →
      search_all_sources query sourcesOpt u fails now cache =
        { envelope := env, cache := cache, trace := [], invoked := [] } := by
  intro query sourcesOpt u fails now cache env h
  simp [search_all_sources, h]

/-- C3: on a cache hit the stored envelope is returned as deserialized,
the cache is untouched and no adapter is invoked; and, for a configured
healthy backend, a miss followed by a second call for the same query and
source set returns the identical envelope (original timestamp included,
whatever the second call's upstreams, failures or entry time would have
been) with no adapter invoked. -/
theorem claim3_cache_hit_short_circuit :
    (∀ (query : String) (sourcesOpt : Option (List String)) (u : Upstreams) (fails : AggFailures)
        (now : String) (cache : CacheState) (env : SearchEnvelope),
      cacheLookup cache (cacheKeyInput query (sourcesOpt.getD knownSources)) = some env →
      search_all_sources query sourcesOpt u fails now cache =
        { envelope := env, cache := cache, trace := [], invoked := [] })
    ∧ (∀ (query : String) (sourcesOpt : Option (List String)) (u1 u2 : Upstreams)
        (f1 f2 : AggFailures) (now1 now2 : String) (cache : CacheState),
      cache.configured = true → cache.getRaises = false → cache.setRaises = false →
      cacheLookup cache (cacheKeyInput query (sourcesOpt.getD knownSources)) = none →
      search_all_sources query sourcesOpt u2 f2 now2
          (search_all_sources query sourcesOpt u1 f1 now1 cache).cache =
        { envelope := (search_all_sources query sourcesOpt u1 f1 now1 cache).envelope
          cache := (search_all_sources query sourcesOpt u1 f1 now1 cache).cache
          trace := [], invoked := [] }
      ∧ (search_all_sources query sourcesOpt u1 f1 now1 cache).envelope.timestamp = now1) := by
  constructor
  · exact search_all_sources_hit
  · intro query sourcesOpt u1 u2 f1 f2 now1 now2 cache h1 h2 h3 hm
    have hcache : (search_all_sources query sourcesOpt u1 f1 now1 cache).cache =
        cacheStore cache (cacheKeyInput query (sourcesOpt.getD knownSources))
          (search_all_sources query sourcesOpt u1 f1 now1 cache).envelope := by
      simp [search_all_sources, hm]
    have hlook : cacheLookup (search_all_sources query sourcesOpt u1 f1 now1 cache).cache
        (cacheKeyInput query (sourcesOpt.getD knownSources)) =
        some (search_all_sources query sourcesOpt u1 f1 now1 cache).envelope := by
      rw [hcache]
      exact cacheLookup_store cache _ _ h1 h2 h3
    refine ⟨search_all_sources_hit _ _ _ _ _ _ _ hlook, ?_⟩
    simp [search_all_sources, hm]

/-- C3 witness: a fresh configured backend, a miss, then a hit. -/
theorem claim3_cache_hit_short_circuit_witness :
    (freshCache.configured = true ∧ freshCache.getRaises = false ∧ freshCache.setRaises = false ∧
      cacheLookup freshCache
        (cacheKeyInput "q" ((some ["arxiv"] : Option (List String)).getD knownSources)) = none) ∧
    (search_all_sources "q" (some ["arxiv"]) failedUpstreams noAggFailures "t2"
        (search_all_sources "q" (some ["arxiv"]) failedUpstreams noAggFailures "t1" freshCache).cache =
      { envelope := (search_all_sources "q" (some ["arxiv"]) failedUpstreams noAggFailures
          "t1" freshCache).envelope
        cache := (search_all_sources "q" (some ["arxiv"]) failedUpstreams noAggFailures
          "t1" freshCache).cache
        trace := [], invoked := [] }
     ∧ (search_all_sources "q" (some ["arxiv"]) failedUpstreams noAggFailures
          "t1" freshCache).envelope.timestamp = "t1") :=
  ⟨⟨rfl, rfl, rfl, by decide⟩,
    claim3_cache_hit_short_circuit.2 "q" (some ["arxiv"]) failedUpstreams failedUpstreams
      noAggFailures noAggFailures "t1" "t2" freshCache rfl rfl rfl (by decide)⟩

/-- The order in which search_all_sources handles the five sources. -/
def dispatchOrder : List String := ["semantic", "openalex", "scholar", "pubmed", "arxiv"]

/-- C8: on the compute path the envelope's sources mapping holds exactly
the requested names that are among the five known sources, in dispatch
order, each bound to a (possibly empty) record list; unknown names are
silently dropped, and an absent source list selects all five. -/
theorem claim8_sources_mapping (query : String) (sourcesOpt : Option (List String))
    (u : Upstreams) (fails : AggFailures) (now : String) (cache : CacheState)
    (hmiss : cacheLookup cache (cacheKeyInput query (sourcesOpt.getD knownSources)) = none) :
    ((search_all_sources query sourcesOpt u fails now cache).envelope.sources.map Prod.fst =
      dispatchOrder.filter fun s => decide (s ∈ sourcesOpt.getD knownSources))
    ∧ (∀ s, s ∈ (search_all_sources query sourcesOpt u fails now cache).envelope.sources.map
          Prod.fst ↔
        s ∈ knownSources ∧ s ∈ sourcesOpt.getD knownSources) := by
  have hres : (search_all_sources query sourcesOpt u fails now cache).envelope.sources =
      ((adapterRuns u fails).foldl (aggStep (sourcesOpt.getD knownSources)) ⟨[], 0, [], []⟩).sources := by
    simp [search_all_sources, hmiss]
  have hnames : (adapterRuns u fails).map (fun run => run.1) = dispatchOrder := rfl
  have hkeys : (search_all_sources query sourcesOpt u fails now cache).envelope.sources.map
      Prod.fst = dispatchOrder.filter fun s => decide (s ∈ sourcesOpt.getD knownSources) := by
    rw [hres, aggFold_keys, hnames]
    rfl
  refine ⟨hkeys, fun s => ?_⟩
  rw [hkeys]
  simp only [List.mem_filter, decide_eq_true_eq]
  constructor
  · rintro ⟨hd, hm⟩
    refine ⟨?_, hm⟩
    simp only [dispatchOrder, List.mem_cons, List.not_mem_nil, or_false] at hd
    simp only [knownSources, List.mem_cons, List.not_mem_nil, or_false]
    tauto
  · rintro ⟨hk, hm⟩
    refine ⟨?_, hm⟩
    simp only [knownSources, List.mem_cons, List.not_mem_nil, or_false] at hk
    simp only [dispatchOrder, List.mem_cons, List.not_mem_nil, or_false]
    tauto

/-- C8 witness: a request with one known and one unknown name against the
unconfigured cache. -/
theorem claim8_sources_mapping_witness :
    cacheLookup noCache
      (cacheKeyInput "q" ((some ["bogus", "arxiv"] : Option (List String)).getD knownSources)) =
        none ∧
    ((search_all_sources "q" (some ["bogus", "arxiv"]) failedUpstreams noAggFailures "t"
        noCache).envelope.sources.map Prod.fst =
      dispatchOrder.filter fun s => decide (s ∈ (some ["bogus", "arxiv"] :
        Option (List String)).getD knownSources))
    ∧ (∀ s, s ∈ (search_all_sources "q" (some ["bogus", "arxiv"]) failedUpstreams noAggFailures
          "t" noCache).envelope.sources.map Prod.fst ↔
        s ∈ knownSources ∧ s ∈ (some ["bogus", "arxiv"] : Option (List String)).getD
          knownSources) :=
  ⟨by decide,
    (claim8_sources_mapping "q" (some ["bogus", "arxiv"]) failedUpstreams noAggFailures "t"
      noCache (by decide)).1,
    (claim8_sources_mapping "q" (some ["bogus", "arxiv"]) failedUpstreams noAggFailures "t"
      noCache (by decide)).2⟩

/-- Upstreams in which arXiv returns six well-formed feed entries. -/
def sixArxivUpstreams : Upstreams :=
  { failedUpstreams with arxiv := ArxivUpstream.entries (List.replicate 6 arxivEntry0) }

/-- The request of the C4 example: query graph neural networks, sources
[arxiv], num_results 5 (lines 386-389, 416-421). -/
def gnnRequest : SearchRequest :=
  { query := "graph neural networks", sources := some ["arxiv"], num_results := 5 }

/-- C4 counterexample: the request query graph neural networks, sources
[arxiv], num_results 5; request.num_results is dropped at the endpoint, so
the adapter asks upstream for its default of 10 and applies no local cap,
and with six upstream entries the envelope holds six arXiv records, not at
most five. -/
theorem claim4_counterexample :
    ((search_endpoint gnnRequest
        sixArxivUpstreams noAggFailures "t" noCache).response.data.sources.map
      fun p => (p.1, p.2.length)) = [("arxiv", 6)] ∧ ¬ (6 ≤ 5) := by
  exact ⟨by decide, by decide⟩

/-- C4 (amended): for that request the envelope's sources.arxiv sequence
holds one record per successfully parsed upstream entry (the request's
num_results is not threaded to the adapter, which requests 10 upstream and
caps nothing locally, so the count is bounded only by the upstream entry
count), and every record has source arXiv, venue arXiv Preprint and
citations N/A. -/
theorem claim4_arxiv_record_shape (u : Upstreams) (fails : AggFailures) (now : String)
    (cache : CacheState)
    (hmiss : cacheLookup cache
      (cacheKeyInput "graph neural networks"
        ((some ["arxiv"] : Option (List String)).getD knownSources)) = none) :
    (∀ p ∈ (search_endpoint gnnRequest u fails now cache).response.data.sources,
      ∀ r ∈ p.2, r.source = "arXiv" ∧ r.venue = "arXiv Preprint" ∧ r.citations = Citations.na)
    ∧ (∀ es, u.arxiv = ArxivUpstream.entries es →
        ∀ p ∈ (search_endpoint gnnRequest u fails now cache).response.data.sources,
          p.2.length ≤ es.length) := by
  simp only [Option.getD_some] at hmiss
  have hsrc : (search_endpoint gnnRequest u fails now cache).response.data.sources =
      [("arxiv", if fails.arxiv then [] else search_arxiv u.arxiv 10)] := by
    simp [search_endpoint, search_all_sources, hmiss, adapterRuns, aggStep, gnnRequest]
  have hlen : ∀ es, u.arxiv = ArxivUpstream.entries es →
      (search_arxiv u.arxiv 10).length ≤ es.length := by
    intro es hes
    rw [hes, search_arxiv, arxivGo_eq]
    simp only [List.reverse_nil, List.nil_append]
    calc (((es.map arxivEntryRecord).takeWhile Except.isOk).filterMap Except.toOption).length
        ≤ ((es.map arxivEntryRecord).takeWhile Except.isOk).length :=
          List.length_filterMap_le _ _
      _ ≤ (es.map arxivEntryRecord).length :=
          length_takeWhile_le2 Except.isOk _
      _ = es.length := List.length_map es arxivEntryRecord
  constructor
  · intro p hp r hr
    rw [hsrc] at hp
    rcases List.mem_cons.mp hp with hp | hp
    · subst hp
      by_cases hf : fails.arxiv
      · rw [if_pos hf] at hr
        cases hr
      · rw [if_neg hf] at hr
        obtain ⟨e, he⟩ := search_arxiv_mem u.arxiv 10 r hr
        have hfld := arxivEntryRecord_fields e r he
        exact ⟨hfld.1, hfld.2.1, hfld.2.2.1⟩
    · cases hp
  · intro es hes p hp
    rw [hsrc] at hp
    rcases List.mem_cons.mp hp with hp | hp
    · subst hp
      by_cases hf : fails.arxiv
      · simp [hf]
      · simp only [hf, if_neg, if_false]
        exact hlen es hes
    · cases hp

/-- C4 amended witness: six upstream entries produce six well-shaped
records, within the upstream entry count. -/
theorem claim4_arxiv_record_shape_witness :
    cacheLookup noCache
      (cacheKeyInput "graph neural networks"
        ((some ["arxiv"] : Option (List String)).getD knownSources)) = none ∧
    ((∀ p ∈ (search_endpoint gnnRequest sixArxivUpstreams noAggFailures "t" noCache).response.data.sources,
        ∀ r ∈ p.2, r.source = "arXiv" ∧ r.venue = "arXiv Preprint" ∧ r.citations = Citations.na)
      ∧ (∀ es, sixArxivUpstreams.arxiv = ArxivUpstream.entries es →
          ∀ p ∈ (search_endpoint gnnRequest sixArxivUpstreams noAggFailures "t"
            noCache).response.data.sources, p.2.length ≤ es.length)) :=
  ⟨by decide,
    claim4_arxiv_record_shape sixArxivUpstreams noAggFailures "t" noCache (by decide)⟩
